import Mathlib

/-!
Verification of the oplog crate: a decoder from BSON oplog documents to typed
`Operation` values (src/oper.rs), the error taxonomy (src/error.rs), and the
`Stream` wrapper over a tailable cursor (src/lib.rs).

BSON values are modelled as a tree; documents are ordered key/value lists with
first-match lookup, matching the bson crate's `Document::get` family. The
decoder can return a value, a decode error, or abort the process (the chrono
`Utc.timestamp` call panics on out-of-range nanoseconds); the three outcomes
are modelled by `PResult`.
-/

namespace Oplog

/-- A BSON timestamp: `time` and `increment` are `u32` in the bson crate. -/
structure BsonTimestamp where
  time : Nat
  increment : Nat
deriving DecidableEq, Repr

/-- BSON values, restricted to the shapes the decoder distinguishes: documents,
arrays, strings, timestamps, and a representative scalar (`int32`) standing for
every other BSON type (the decoder only ever asks "is this a document / array /
string / timestamp", so one non-matching scalar suffices). -/
inductive Bson where
  | timestamp (ts : BsonTimestamp)
  | str (s : String)
  | int32 (v : Int)
  | document (d : List (String × Bson))
  | array (elems : List Bson)

/-- A BSON document: an ordered list of key/value pairs. -/
abbrev Document := List (String × Bson)

/-- Model of `bson::document::ValueAccessError`: a typed accessor fails either because
the key is absent or because the value has another type. -/
inductive ValueAccessError where
  | NotPresent
  | UnexpectedType
deriving DecidableEq, Repr

/-- Modelled from the spec: transport failures reported by the collaborator
MongoDB client (`mongodb::error::Error`) are external payloads surfaced
verbatim and never inspected by the core; represented by an abstract code. -/
structure TransportError where
  code : Nat
deriving DecidableEq, Repr

/-- The error taxonomy of src/error.rs. -/
inductive Error where
  | Database (e : TransportError)
  | MissingField (e : ValueAccessError)
  | UnknownOperation (op : String)
  | InvalidOperation
deriving DecidableEq, Repr

/-- Model of `Document::get`: first value stored at a key, if any. -/
def Document.get : Document → String → Option Bson
  | [], _ => none
  | (k, v) :: rest, key => if k = key then some v else Document.get rest key

/-- Model of `Document::get_str`. -/
def Document.get_str (d : Document) (key : String) : Except ValueAccessError String :=
  match Document.get d key with
  | none => .error .NotPresent
  | some (.str s) => .ok s
  | some _ => .error .UnexpectedType

/-- Model of `Document::get_timestamp`. -/
def Document.get_timestamp (d : Document) (key : String) :
    Except ValueAccessError BsonTimestamp :=
  match Document.get d key with
  | none => .error .NotPresent
  | some (.timestamp ts) => .ok ts
  | some _ => .error .UnexpectedType

/-- Model of `Document::get_document`. -/
def Document.get_document (d : Document) (key : String) : Except ValueAccessError Document :=
  match Document.get d key with
  | none => .error .NotPresent
  | some (.document o) => .ok o
  | some _ => .error .UnexpectedType

/-- Model of `Document::get_array`. -/
def Document.get_array (d : Document) (key : String) : Except ValueAccessError (List Bson) :=
  match Document.get d key with
  | none => .error .NotPresent
  | some (.array xs) => .ok xs
  | some _ => .error .UnexpectedType

/-- Model of `Bson::as_document`. -/
def Bson.as_document : Bson → Option Document
  | .document d => some d
  | _ => none

/-- Model of `Bson::as_str`. -/
def Bson.as_str : Bson → Option String
  | .str s => some s
  | _ => none

/-- A UTC datetime as produced by chrono's `Utc.timestamp`: epoch seconds plus
a sub-second nanosecond slot. -/
structure UtcDatetime where
  secs : Int
  nsecs : Nat
deriving DecidableEq, Repr

/-- Model of chrono's `Utc.timestamp(secs, nsecs)`: yields the UTC datetime
with the given epoch seconds and nanoseconds; for `nsecs >= 2_000_000_000` the
call is documented to panic, modelled as `none` (the seconds argument, a `u32`
cast to `i64` at the call site, is always within chrono's accepted range). -/
def Utc_timestamp (secs : Int) (nsecs : Nat) : Option UtcDatetime :=
  if nsecs < 2000000000 then some ⟨secs, nsecs⟩ else none

/-- Model of `timestamp_to_datetime` of src/oper.rs. -/
def timestamp_to_datetime (timestamp : BsonTimestamp) : Option UtcDatetime :=
  Utc_timestamp (timestamp.time : Int) timestamp.increment

/-- The `Operation` enum of src/oper.rs. In `Update`, the source stores
`query = o2` and `update = o`; the argument order below is
timestamp, namespace, query, update. -/
inductive Operation where
  | Noop (timestamp : UtcDatetime) (message : Option String)
  | Insert (timestamp : UtcDatetime) (ns : String) (document : Document)
  | Update (timestamp : UtcDatetime) (ns : String) (query : Document) (update : Document)
  | Delete (timestamp : UtcDatetime) (ns : String) (query : Document)
  | Command (timestamp : UtcDatetime) (ns : String) (command : Document)
  | ApplyOps (timestamp : UtcDatetime) (ns : String) (operations : List Operation)

/-- Outcome of running a piece of Rust code that may return `Ok`, return
`Err`, or panic: `crash` models a panic (the only panic source here is
`Utc.timestamp`). -/
inductive PResult (α : Type) where
  | crash : PResult α
  | err (e : Error) : PResult α
  | ok (a : α) : PResult α

/-- Model of `Operation::from_noop`: requires `ts`; the optional message is read by the
option chain `get("o").and_then(as_document).and_then(get("msg")).and_then(as_str)`. -/
def noop_message (d : Document) : Option String :=
  (((Document.get d "o").bind Bson.as_document).bind
    (fun o => Document.get o "msg")).bind Bson.as_str

def Operation.from_noop (d : Document) : PResult Operation :=
  match Document.get_timestamp d "ts" with
  | .error e => .err (.MissingField e)
  | .ok ts =>
    match timestamp_to_datetime ts with
    | none => .crash
    | some dt => .ok (.Noop dt (noop_message d))

/-- Model of `Operation::from_insert`: requires `ts`, `ns`, document `o`. -/
def Operation.from_insert (d : Document) : PResult Operation :=
  match Document.get_timestamp d "ts" with
  | .error e => .err (.MissingField e)
  | .ok ts =>
    match Document.get_str d "ns" with
    | .error e => .err (.MissingField e)
    | .ok ns =>
      match Document.get_document d "o" with
      | .error e => .err (.MissingField e)
      | .ok o =>
        match timestamp_to_datetime ts with
        | none => .crash
        | some dt => .ok (.Insert dt ns o)

/-- Model of `Operation::from_update`: requires `ts`, `ns`, `o`, `o2`; stores
`query = o2`, `update = o`. -/
def Operation.from_update (d : Document) : PResult Operation :=
  match Document.get_timestamp d "ts" with
  | .error e => .err (.MissingField e)
  | .ok ts =>
    match Document.get_str d "ns" with
    | .error e => .err (.MissingField e)
    | .ok ns =>
      match Document.get_document d "o" with
      | .error e => .err (.MissingField e)
      | .ok o =>
        match Document.get_document d "o2" with
        | .error e => .err (.MissingField e)
        | .ok o2 =>
          match timestamp_to_datetime ts with
          | none => .crash
          | some dt => .ok (.Update dt ns o2 o)

/-- Model of `Operation::from_delete`: requires `ts`, `ns`, `o`; stores `query = o`. -/
def Operation.from_delete (d : Document) : PResult Operation :=
  match Document.get_timestamp d "ts" with
  | .error e => .err (.MissingField e)
  | .ok ts =>
    match Document.get_str d "ns" with
    | .error e => .err (.MissingField e)
    | .ok ns =>
      match Document.get_document d "o" with
      | .error e => .err (.MissingField e)
      | .ok o =>
        match timestamp_to_datetime ts with
        | none => .crash
        | some dt => .ok (.Delete dt ns o)

mutual

/-- Structural size of a BSON tree, ignoring scalar content; used as the
termination measure of the recursive decoder. -/
def Bson.weight : Bson → Nat
  | .timestamp _ => 1
  | .str _ => 1
  | .int32 _ => 1
  | .document d => 1 + weightDoc d
  | .array xs => 1 + weightArr xs

def weightDoc : List (String × Bson) → Nat
  | [] => 0
  | (_, v) :: rest => 1 + Bson.weight v + weightDoc rest

def weightArr : List Bson → Nat
  | [] => 0
  | b :: rest => 1 + Bson.weight b + weightArr rest

end

/-- Any value found under a key is smaller than the whole document. -/
theorem weight_lt_of_get {d : Document} {k : String} {v : Bson}
    (h : Document.get d k = some v) : Bson.weight v < weightDoc d := by
  induction d with
  | nil => simp [Document.get] at h
  | cons p rest ih =>
    obtain ⟨k', v'⟩ := p
    by_cases hk : k' = k
    · simp [Document.get, hk] at h
      subst h
      simp [weightDoc]
      omega
    · simp [Document.get, hk] at h
      have := ih h
      simp [weightDoc]
      omega

theorem weight_lt_of_get_document {d : Document} {k : String} {o : Document}
    (h : Document.get_document d k = .ok o) : 1 + weightDoc o < weightDoc d := by
  unfold Document.get_document at h
  cases hg : Document.get d k with
  | none => simp [hg] at h
  | some b =>
    cases b <;> simp [hg] at h
    subst h
    have := weight_lt_of_get hg
    simpa [Bson.weight] using this

theorem weight_lt_of_get_array {d : Document} {k : String} {xs : List Bson}
    (h : Document.get_array d k = .ok xs) : 1 + weightArr xs < weightDoc d := by
  unfold Document.get_array at h
  cases hg : Document.get d k with
  | none => simp [hg] at h
  | some b =>
    cases b <;> simp [hg] at h
    subst h
    have := weight_lt_of_get hg
    simpa [Bson.weight] using this

mutual

/-- Model of `Operation::new`: read the required string field `op` and dispatch. -/
def Operation.new (d : Document) : PResult Operation :=
  match Document.get_str d "op" with
  | .error e => .err (.MissingField e)
  | .ok op =>
    match op with
    | "n" => Operation.from_noop d
    | "i" => Operation.from_insert d
    | "u" => Operation.from_update d
    | "d" => Operation.from_delete d
    | "c" => Operation.from_command d
    | op => .err (.UnknownOperation op)
termination_by 2 * weightDoc d + 1
decreasing_by simp_wf <;> omega

/-- Model of `Operation::from_command`: requires `ts`, `ns`, document `o`; if `o` has an
array field `applyOps`, recursively decode each element and build `ApplyOps`,
otherwise fall back to `Command` with `command = o`. The timestamp conversion
in each branch happens after the collection of nested operations. -/
def Operation.from_command (d : Document) : PResult Operation :=
  match Document.get_timestamp d "ts" with
  | .error e => .err (.MissingField e)
  | .ok ts =>
    match Document.get_str d "ns" with
    | .error e => .err (.MissingField e)
    | .ok ns =>
      match ho : Document.get_document d "o" with
      | .error e => .err (.MissingField e)
      | .ok o =>
        match ha : Document.get_array o "applyOps" with
        | .ok ops =>
          match collectOperations ops with
          | .crash => .crash
          | .err e => .err e
          | .ok operations =>
            match timestamp_to_datetime ts with
            | none => .crash
            | some dt => .ok (.ApplyOps dt ns operations)
        | .error _ =>
          match timestamp_to_datetime ts with
          | none => .crash
          | some dt => .ok (.Command dt ns o)
termination_by 2 * weightDoc d
decreasing_by
  simp_wf
  have h1 := weight_lt_of_get_document ho
  have h2 := weight_lt_of_get_array ha
  omega

/-- Model of `Operation::from_bson`: a nested `applyOps` element must be a document,
decoded through the top-level entry point; anything else is `InvalidOperation`. -/
def Operation.from_bson (b : Bson) : PResult Operation :=
  match b with
  | .document doc => Operation.new doc
  | _ => .err .InvalidOperation
termination_by 2 * Bson.weight b
decreasing_by simp_wf <;> simp [Bson.weight] <;> omega

/-- Model of `ops.iter().map(Operation::from_bson).collect::<Result<Vec<_>>>()`:
left-to-right, short-circuiting at the first error (or panic). -/
def collectOperations (l : List Bson) : PResult (List Operation) :=
  match l with
  | [] => .ok []
  | b :: rest =>
    match Operation.from_bson b with
    | .crash => .crash
    | .err e => .err e
    | .ok o =>
      match collectOperations rest with
      | .crash => .crash
      | .err e => .err e
      | .ok os => .ok (o :: os)
termination_by 2 * weightArr l
decreasing_by
  all_goals simp_wf <;> simp [weightArr] <;> omega

end

/-- Modelled from the spec: the collaborator tailable cursor (§6) delivers, on
each pull, either a raw document, a transport error, or an exhaustion signal;
it is represented by the sequence of events it still has to deliver, with
exhaustion reported once the sequence is empty (and forever after, matching
the spec's terminal reading of the end-of-data signal). -/
abbrev CursorState := List (Except TransportError Document)

/-- Outcome of one pull on the `Oplog` stream: an item (`Ok` operation or
`Err`), the end-of-stream signal (`Poll::Ready(None)`), or a panic during
decoding. -/
inductive PollResult where
  | item (r : Except Error Operation)
  | closed
  | crash

/-- Model of `poll_next` of `impl Stream for Oplog` (src/lib.rs): forward the cursor's
next event; a document is decoded with `Operation::new`, a cursor error is
wrapped as `Error::Database` via `From`, and cursor exhaustion ends the
stream. -/
def poll_next : CursorState → PollResult × CursorState
  | [] => (.closed, [])
  | .error e :: rest => (.item (.error (.Database e)), rest)
  | .ok doc :: rest =>
    match Operation.new doc with
    | .crash => (.crash, rest)
    | .err e => (.item (.error e), rest)
    | .ok o => (.item (.ok o), rest)

/-- The results of `n` successive pulls on the stream. -/
def pollTrace : Nat → CursorState → List PollResult
  | 0, _ => []
  | n + 1, s =>
    (poll_next s).1 :: pollTrace n (poll_next s).2

/-- Unconditional unfolding of `Operation.from_command`, with the match
hypotheses of the well-founded definition dropped. -/
theorem from_command_eq (d : Document) :
    Operation.from_command d =
      match Document.get_timestamp d "ts" with
      | .error e => .err (.MissingField e)
      | .ok ts =>
        match Document.get_str d "ns" with
        | .error e => .err (.MissingField e)
        | .ok ns =>
          match Document.get_document d "o" with
          | .error e => .err (.MissingField e)
          | .ok o =>
            match Document.get_array o "applyOps" with
            | .ok ops =>
              match collectOperations ops with
              | .crash => .crash
              | .err e => .err e
              | .ok operations =>
                match timestamp_to_datetime ts with
                | none => .crash
                | some dt => .ok (.ApplyOps dt ns operations)
            | .error _ =>
              match timestamp_to_datetime ts with
              | none => .crash
              | some dt => .ok (.Command dt ns o) := by
  rw [Operation.from_command.eq_def]
  repeat' split
  all_goals simp_all

/-- A document with a missing or wrong-typed `op` field decodes to
`MissingField`. -/
theorem new_missing_op {d : Document} {e : ValueAccessError}
    (h : Document.get_str d "op" = .error e) :
    Operation.new d = .err (.MissingField e) := by
  simp [Operation.new, h]

/-- If every element of a list decodes, the collection succeeds and is the
element-wise decode, in order. -/
theorem collectOperations_ok_of_forall (l : List Bson)
    (h : ∀ b ∈ l, ∃ o, Operation.from_bson b = .ok o) :
    ∃ os : List Operation, collectOperations l = .ok os ∧
      l.map Operation.from_bson = os.map PResult.ok := by
  induction l with
  | nil => exact ⟨[], by simp [collectOperations]⟩
  | cons b rest ih =>
    obtain ⟨o, hb⟩ := h b (by simp)
    obtain ⟨os, hos, hmap⟩ := ih (fun x hx => h x (by simp [hx]))
    exact ⟨o :: os, by simp [collectOperations, hb, hos], by simp [hb, hmap]⟩

/-- The collection stops at the first failing element and propagates its
error. -/
theorem collectOperations_err (pre : List Bson) (b : Bson) (rest : List Bson)
    (e : Error) (hpre : ∀ x ∈ pre, ∃ o, Operation.from_bson x = .ok o)
    (hb : Operation.from_bson b = .err e) :
    collectOperations (pre ++ b :: rest) = .err e := by
  induction pre with
  | nil => simp [collectOperations, hb]
  | cons p ps ih =>
    obtain ⟨o, hp⟩ := hpre p (by simp)
    have := ih (fun x hx => hpre x (by simp [hx]))
    simp [collectOperations, hp, this]

/-- A nested `applyOps` element that is not a document is rejected as
`InvalidOperation`. -/
theorem from_bson_not_document {b : Bson} (h : ∀ dd, b ≠ Bson.document dd) :
    Operation.from_bson b = .err .InvalidOperation := by
  cases b <;> simp [Operation.from_bson]
  exact absurd rfl (h _)

end Oplog

namespace Oplog

/- Concrete documents used by the witnesses, taken from the crate's own test
scenarios. -/

/-- An insert document, as in the crate's doctest and tests. -/
def wInsertDoc : Document :=
  [("ts", Bson.timestamp ⟨1479561394, 0⟩), ("op", Bson.str "i"),
   ("ns", Bson.str "foo.bar"), ("o", Bson.document [("foo", Bson.str "bar")])]

/-- An applyOps command whose single element is `wInsertDoc`. -/
def wInnerCmdDoc : Document :=
  [("ts", Bson.timestamp ⟨1479561394, 5⟩), ("op", Bson.str "c"),
   ("ns", Bson.str "foo.$cmd"),
   ("o", Bson.document [("applyOps", Bson.array [Bson.document wInsertDoc])])]

/-- An applyOps command whose single element is itself an applyOps command. -/
def wOuterCmdDoc : Document :=
  [("ts", Bson.timestamp ⟨1483789052, 0⟩), ("op", Bson.str "c"),
   ("ns", Bson.str "admin.$cmd"),
   ("o", Bson.document [("applyOps", Bson.array [Bson.document wInnerCmdDoc])])]

theorem wInsert_eval : Operation.new wInsertDoc =
    .ok (.Insert ⟨1479561394, 0⟩ "foo.bar" [("foo", Bson.str "bar")]) := by
  simp [Operation.new, Operation.from_insert, wInsertDoc, Document.get_str,
    Document.get_timestamp, Document.get_document, Document.get,
    timestamp_to_datetime, Utc_timestamp]

theorem wInnerCmd_eval : Operation.new wInnerCmdDoc =
    .ok (.ApplyOps ⟨1479561394, 5⟩ "foo.$cmd"
      [.Insert ⟨1479561394, 0⟩ "foo.bar" [("foo", Bson.str "bar")]]) := by
  have hcol : collectOperations [Bson.document wInsertDoc] =
      .ok [.Insert ⟨1479561394, 0⟩ "foo.bar" [("foo", Bson.str "bar")]] := by
    simp [collectOperations, Operation.from_bson, wInsert_eval]
  have hfc : Operation.from_command wInnerCmdDoc =
      .ok (.ApplyOps ⟨1479561394, 5⟩ "foo.$cmd"
        [.Insert ⟨1479561394, 0⟩ "foo.bar" [("foo", Bson.str "bar")]]) := by
    rw [from_command_eq]
    simp [wInnerCmdDoc, Document.get_str, Document.get_timestamp,
      Document.get_document, Document.get_array, Document.get, hcol,
      timestamp_to_datetime, Utc_timestamp]
  have hop : Document.get_str wInnerCmdDoc "op" = .ok "c" := by
    simp [wInnerCmdDoc, Document.get_str, Document.get]
  simp [Operation.new, hop, hfc]

/-- C1 (amended): a `"c"` document whose `o.applyOps` array has N elements,
all of them documents that decode successfully, and whose timestamp ordinal
is within chrono's accepted range (the conversion is defined), decodes to
`ApplyOps` whose nested sequence lists, in array order, exactly the result of
decoding each element independently through the top-level entry point
(`Operation.from_bson` on a document is `Operation.new`), with exactly N of
them. -/
theorem C1_applyOps_decode (d : Document) (ts : BsonTimestamp) (ns : String)
    (o : Document) (arr : List Bson) (dt : UtcDatetime)
    (hop : Document.get_str d "op" = .ok "c")
    (hts : Document.get_timestamp d "ts" = .ok ts)
    (hns : Document.get_str d "ns" = .ok ns)
    (ho : Document.get_document d "o" = .ok o)
    (ha : Document.get_array o "applyOps" = .ok arr)
    (helems : ∀ b ∈ arr, ∃ dd op, b = Bson.document dd ∧ Operation.new dd = .ok op)
    (hdt : timestamp_to_datetime ts = some dt) :
    ∃ ops : List Operation,
      Operation.new d = .ok (.ApplyOps dt ns ops) ∧
      arr.map Operation.from_bson = ops.map PResult.ok ∧
      ops.length = arr.length ∧
      ∀ (k : Nat) (hk : k < arr.length) (hk2 : k < ops.length) (dd : Document),
        arr.get ⟨k, hk⟩ = Bson.document dd →
        Operation.new dd = .ok (ops.get ⟨k, hk2⟩) := by
  have hall : ∀ b ∈ arr, ∃ op, Operation.from_bson b = .ok op := by
    intro b hb
    obtain ⟨dd, op, rfl, hdd⟩ := helems b hb
    exact ⟨op, by simp [Operation.from_bson, hdd]⟩
  obtain ⟨ops, hcol, hmap⟩ := collectOperations_ok_of_forall arr hall
  refine ⟨ops, ?_, hmap, ?_, ?_⟩
  · have hfc : Operation.from_command d = .ok (.ApplyOps dt ns ops) := by
      rw [from_command_eq]
      simp only [hts, hns, ho, ha, hcol, hdt]
    simp [Operation.new, hop, hfc]
  · simpa using (congrArg List.length hmap).symm
  · intro k hk hk2 dd hdd
    have hq : (arr.map Operation.from_bson)[k]? = (ops.map PResult.ok)[k]? := by
      rw [hmap]
    rw [List.getElem?_map, List.getElem?_map, List.getElem?_eq_getElem hk,
      List.getElem?_eq_getElem hk2] at hq
    simp only [Option.map_some', Option.some.injEq] at hq
    have harr : arr[k] = Bson.document dd := by
      simpa [List.get_eq_getElem] using hdd
    rw [harr] at hq
    have hfb : Operation.from_bson (Bson.document dd) = Operation.new dd := by
      simp [Operation.from_bson]
    rw [hfb] at hq
    simpa [List.get_eq_getElem] using hq

/-- C1 witness: a concrete applyOps command whose nested element is itself an
applyOps command (exercising the recursion through `op = "c"`). -/
theorem C1_witness :
    ∃ ops : List Operation,
      Operation.new wOuterCmdDoc = .ok (.ApplyOps ⟨1483789052, 0⟩ "admin.$cmd" ops) ∧
      List.map Operation.from_bson [Bson.document wInnerCmdDoc] =
        ops.map PResult.ok ∧
      ops.length = [Bson.document wInnerCmdDoc].length ∧
      ∀ (k : Nat) (hk : k < [Bson.document wInnerCmdDoc].length)
        (hk2 : k < ops.length) (dd : Document),
        [Bson.document wInnerCmdDoc].get ⟨k, hk⟩ = Bson.document dd →
        Operation.new dd = .ok (ops.get ⟨k, hk2⟩) :=
  C1_applyOps_decode wOuterCmdDoc ⟨1483789052, 0⟩ "admin.$cmd"
    [("applyOps", Bson.array [Bson.document wInnerCmdDoc])]
    [Bson.document wInnerCmdDoc] ⟨1483789052, 0⟩ rfl rfl rfl rfl rfl
    (by
      intro b hb
      simp only [List.mem_singleton] at hb
      subst hb
      exact ⟨wInnerCmdDoc, _, rfl, wInnerCmd_eval⟩)
    rfl

/-- A well-formed applyOps command satisfying every premise of C1 except that
its timestamp ordinal is outside chrono's accepted range. -/
def wC1PanicDoc : Document :=
  [("ts", Bson.timestamp ⟨1483789052, 2000000000⟩), ("op", Bson.str "c"),
   ("ns", Bson.str "foo.$cmd"),
   ("o", Bson.document [("applyOps", Bson.array [Bson.document wInsertDoc])])]

/-- C1 counterexample: op is `"c"`, `ts`, `ns` and document `o` are present,
and `o.applyOps` is an array of one document that decodes successfully, yet
decode panics (ordinal 2_000_000_000 makes the chrono conversion abort)
instead of returning the claimed `ApplyOps`. -/
theorem C1_counterexample : Operation.new wC1PanicDoc = .crash := by
  have hcol : collectOperations [Bson.document wInsertDoc] =
      .ok [.Insert ⟨1479561394, 0⟩ "foo.bar" [("foo", Bson.str "bar")]] := by
    simp [collectOperations, Operation.from_bson, wInsert_eval]
  have hfc : Operation.from_command wC1PanicDoc = .crash := by
    rw [from_command_eq]
    simp [wC1PanicDoc, Document.get_timestamp, Document.get_str,
      Document.get_document, Document.get_array, Document.get, hcol,
      timestamp_to_datetime, Utc_timestamp]
  have hop : Document.get_str wC1PanicDoc "op" = .ok "c" := rfl
  simp [Operation.new, hop, hfc]

end Oplog

namespace Oplog

/-- C2 (amended): an `"u"` document with `ts`, `ns`, document `o` and
document `o2` present, whose timestamp ordinal is within chrono's accepted
range (the conversion is defined), decodes to `Update` with `query = o2` and
`update = o` (not swapped), namespace `ns` and the converted timestamp; if
any of the four fields is absent or wrong-typed, decoding yields a
`MissingField` error. -/
theorem C2_update_decode (d : Document) :
    (∀ ts ns o o2 dt,
      Document.get_str d "op" = .ok "u" →
      Document.get_timestamp d "ts" = .ok ts →
      Document.get_str d "ns" = .ok ns →
      Document.get_document d "o" = .ok o →
      Document.get_document d "o2" = .ok o2 →
      timestamp_to_datetime ts = some dt →
      Operation.new d = .ok (.Update dt ns o2 o)) ∧
    (Document.get_str d "op" = .ok "u" →
      ((∃ e, Document.get_timestamp d "ts" = .error e) ∨
       (∃ e, Document.get_str d "ns" = .error e) ∨
       (∃ e, Document.get_document d "o" = .error e) ∨
       (∃ e, Document.get_document d "o2" = .error e)) →
      ∃ e, Operation.new d = .err (.MissingField e)) := by
  constructor
  · intro ts ns o o2 dt hop hts hns ho ho2 hdt
    simp [Operation.new, hop, Operation.from_update, hts, hns, ho, ho2, hdt]
  · intro hop hfail
    cases hts : Document.get_timestamp d "ts" with
    | error e => exact ⟨e, by simp [Operation.new, hop, Operation.from_update, hts]⟩
    | ok ts =>
      cases hns : Document.get_str d "ns" with
      | error e =>
        exact ⟨e, by simp [Operation.new, hop, Operation.from_update, hts, hns]⟩
      | ok ns =>
        cases ho : Document.get_document d "o" with
        | error e =>
          exact ⟨e, by simp [Operation.new, hop, Operation.from_update, hts, hns, ho]⟩
        | ok o =>
          cases ho2 : Document.get_document d "o2" with
          | error e =>
            exact ⟨e, by
              simp [Operation.new, hop, Operation.from_update, hts, hns, ho, ho2]⟩
          | ok o2 =>
            rcases hfail with ⟨e, h⟩ | ⟨e, h⟩ | ⟨e, h⟩ | ⟨e, h⟩ <;> simp_all

/-- An update document, as in the crate's tests. -/
def wUpdateDoc : Document :=
  [("ts", Bson.timestamp ⟨1479561033, 0⟩), ("op", Bson.str "u"),
   ("ns", Bson.str "foo.bar"), ("o2", Bson.document [("_id", Bson.int32 1)]),
   ("o", Bson.document [("foo", Bson.str "baz")])]

/-- The same update document with `o2` removed. -/
def wUpdateNoQueryDoc : Document :=
  [("ts", Bson.timestamp ⟨1479561033, 0⟩), ("op", Bson.str "u"),
   ("ns", Bson.str "foo.bar"), ("o", Bson.document [("foo", Bson.str "baz")])]

/-- C2 witness: the concrete update decodes with `query = o2` and
`update = o`; dropping `o2` yields `MissingField`. -/
theorem C2_witness :
    Operation.new wUpdateDoc =
      .ok (.Update ⟨1479561033, 0⟩ "foo.bar" [("_id", Bson.int32 1)]
        [("foo", Bson.str "baz")]) ∧
    (∃ e, Operation.new wUpdateNoQueryDoc = .err (.MissingField e)) :=
  ⟨(C2_update_decode wUpdateDoc).1 ⟨1479561033, 0⟩ "foo.bar"
      [("foo", Bson.str "baz")] [("_id", Bson.int32 1)] ⟨1479561033, 0⟩
      rfl rfl rfl rfl rfl rfl,
    (C2_update_decode wUpdateNoQueryDoc).2 rfl
      (Or.inr (Or.inr (Or.inr ⟨.NotPresent, rfl⟩)))⟩

/-- An update document satisfying every premise of C2 except that its
timestamp ordinal is outside chrono's accepted range. -/
def wC2PanicDoc : Document :=
  [("ts", Bson.timestamp ⟨1479561033, 2000000000⟩), ("op", Bson.str "u"),
   ("ns", Bson.str "foo.bar"), ("o2", Bson.document [("_id", Bson.int32 1)]),
   ("o", Bson.document [("foo", Bson.str "baz")])]

/-- C2 counterexample: op is `"u"` and `ts`, `ns`, `o`, `o2` are all present
and well-typed, yet decode panics (ordinal 2_000_000_000 makes the chrono
conversion abort) instead of returning the claimed `Update`. -/
theorem C2_counterexample : Operation.new wC2PanicDoc = .crash := by
  simp [Operation.new, Operation.from_update, wC2PanicDoc, Document.get_str,
    Document.get_timestamp, Document.get_document, Document.get,
    timestamp_to_datetime, Utc_timestamp]

/-- C3: a `"c"` document whose `o.applyOps` array has a first failing element
(after a prefix of elements that decode) propagates exactly that element's
error: the whole decode fails with it, no partial `ApplyOps` is produced, and
when the failing element is not a document the error is `InvalidOperation`. -/
theorem C3_applyOps_first_error (d : Document) (ts : BsonTimestamp) (ns : String)
    (o : Document) (pre : List Bson) (b : Bson) (rest : List Bson) (e : Error)
    (hop : Document.get_str d "op" = .ok "c")
    (hts : Document.get_timestamp d "ts" = .ok ts)
    (hns : Document.get_str d "ns" = .ok ns)
    (ho : Document.get_document d "o" = .ok o)
    (ha : Document.get_array o "applyOps" = .ok (pre ++ b :: rest))
    (hpre : ∀ x ∈ pre, ∃ op, Operation.from_bson x = .ok op)
    (hb : Operation.from_bson b = .err e) :
    Operation.new d = .err e ∧
      ((∀ dd, b ≠ Bson.document dd) → e = Error.InvalidOperation) := by
  have hcol := collectOperations_err pre b rest e hpre hb
  constructor
  · have hfc : Operation.from_command d = .err e := by
      rw [from_command_eq]
      simp only [hts, hns, ho, ha, hcol]
    simp [Operation.new, hop, hfc]
  · intro hnd
    have hinv := from_bson_not_document hnd
    rw [hinv] at hb
    injection hb with h
    exact h.symm

/-- An applyOps command whose array holds a valid insert, then a non-document
element, then a further element that is never reached. -/
def wBadApplyDoc : Document :=
  [("ts", Bson.timestamp ⟨1483789052, 0⟩), ("op", Bson.str "c"),
   ("ns", Bson.str "foo.$cmd"),
   ("o", Bson.document
     [("applyOps", Bson.array
       [Bson.document wInsertDoc, Bson.int32 7, Bson.str "never"])])]

/-- C3 witness: the non-document element makes the whole decode fail with
`InvalidOperation`. -/
theorem C3_witness : Operation.new wBadApplyDoc = .err .InvalidOperation :=
  (C3_applyOps_first_error wBadApplyDoc ⟨1483789052, 0⟩ "foo.$cmd"
    [("applyOps", Bson.array
      [Bson.document wInsertDoc, Bson.int32 7, Bson.str "never"])]
    [Bson.document wInsertDoc] (Bson.int32 7) [Bson.str "never"]
    .InvalidOperation rfl rfl rfl rfl rfl
    (by
      intro x hx
      simp only [List.mem_singleton] at hx
      subst hx
      exact ⟨Operation.Insert ⟨1479561394, 0⟩ "foo.bar" [("foo", Bson.str "bar")],
        by simp [Operation.from_bson, wInsert_eval]⟩)
    (by simp [Operation.from_bson])).1

/-- C4: while the stream is open, a transport failure from the underlying
cursor is yielded as exactly one `Err` wrapping that error and the stream
stays open: pulling a cursor holding `[doc1, transport-error, doc2]` three
times yields `[Ok op1, Err (Database te), Ok op2]` in that order. -/
theorem C4_transport_error_midstream (d1 d2 : Document) (te : TransportError)
    (op1 op2 : Operation)
    (h1 : Operation.new d1 = .ok op1) (h2 : Operation.new d2 = .ok op2) :
    pollTrace 3 [.ok d1, .error te, .ok d2] =
      [.item (.ok op1), .item (.error (.Database te)), .item (.ok op2)] := by
  simp [pollTrace, poll_next, h1, h2]

/-- C4 witness: concrete three-pull trace around a transport error. -/
theorem C4_witness :
    pollTrace 3 [.ok wInsertDoc, .error ⟨7⟩, .ok wInsertDoc] =
      [.item (.ok (.Insert ⟨1479561394, 0⟩ "foo.bar" [("foo", Bson.str "bar")])),
       .item (.error (.Database ⟨7⟩)),
       .item (.ok (.Insert ⟨1479561394, 0⟩ "foo.bar" [("foo", Bson.str "bar")]))] :=
  C4_transport_error_midstream wInsertDoc wInsertDoc ⟨7⟩ _ _
    wInsert_eval wInsert_eval

/-- C5: once a pull observes the cursor's exhaustion signal the stream is
closed for good: every later pull, without exception, produces no item. -/
theorem C5_exhaustion_terminal (s s' : CursorState)
    (h : poll_next s = (.closed, s')) :
    ∀ n, pollTrace n s' = List.replicate n .closed := by
  have hs' : s' = [] := by
    cases s with
    | nil =>
      have h2 := h.symm
      simp [poll_next] at h2
      exact h2
    | cons hd tl =>
      cases hd with
      | error e => simp [poll_next] at h
      | ok doc => cases hnew : Operation.new doc <;> simp [poll_next, hnew] at h
  subst hs'
  intro n
  induction n with
  | zero => rfl
  | succ n ih => simp [pollTrace, poll_next, ih, List.replicate]

/-- C5 witness: five pulls after exhaustion all yield nothing. -/
theorem C5_witness : pollTrace 5 ([] : CursorState) =
    List.replicate 5 PollResult.closed :=
  C5_exhaustion_terminal [] [] rfl 5

end Oplog

namespace Oplog

/-- C6 counterexample: at ordinal `2_000_000_000` the conversion does not
return a datetime at all — the underlying chrono call panics (modelled as
`none`), so the unrestricted claim fails. -/
theorem C6_counterexample :
    timestamp_to_datetime ⟨0, 2000000000⟩ = none := by
  simp [timestamp_to_datetime, Utc_timestamp]

/-- C6 (amended): for every native `u32` pair whose ordinal is below
`2_000_000_000`, the conversion returns the UTC datetime whose epoch seconds
are `seconds` and whose sub-second slot is `ordinal`, read as nanoseconds. -/
theorem C6_conversion_in_range (s ord : Nat) (hs : s < 4294967296)
    (hord : ord < 2000000000) :
    timestamp_to_datetime ⟨s, ord⟩ = some ⟨(s : Int), ord⟩ := by
  simp [timestamp_to_datetime, Utc_timestamp, hord]

/-- C6 witness: the spec's concrete pair. -/
theorem C6_witness :
    timestamp_to_datetime ⟨1479561394, 0⟩ = some ⟨(1479561394 : Int), 0⟩ :=
  C6_conversion_in_range 1479561394 0 (by norm_num) (by norm_num)

/-- C7: any `op` string other than the five known codes is rejected as
`UnknownOperation` carrying that literal string, regardless of any other
field (no `ts` is required first). -/
theorem C7_unknown_operation (d : Document) (s : String)
    (hop : Document.get_str d "op" = .ok s)
    (hs : s ∉ (["n", "i", "u", "d", "c"] : List String)) :
    Operation.new d = .err (.UnknownOperation s) := by
  simp only [List.mem_cons, List.mem_singleton, not_or] at hs
  obtain ⟨h1, h2, h3, h4, h5⟩ := hs
  simp only [Operation.new, hop]
  split <;> simp_all

/-- C7 witness: `{op: "x"}` with no other field decodes to
`UnknownOperation("x")`, not to any other error. -/
theorem C7_witness :
    Operation.new [("op", Bson.str "x")] = .err (.UnknownOperation "x") :=
  C7_unknown_operation [("op", Bson.str "x")] "x" rfl (by decide)

/-- A command document whose applyOps array holds a non-document element
followed by a document that is missing its own `op`. -/
def wC8PreemptDoc : Document :=
  [("ts", Bson.timestamp ⟨1483789052, 0⟩), ("op", Bson.str "c"),
   ("ns", Bson.str "foo.$cmd"),
   ("o", Bson.document
     [("applyOps", Bson.array
       [Bson.int32 7, Bson.document [("x", Bson.int32 1)]])])]

/-- C8 counterexample: this document has a required field absent inside an
applyOps element (the second element lacks its `op`), so the claim demands a
`MissingField` error, yet decode returns `InvalidOperation`: the earlier
non-document element preempts. -/
theorem C8_counterexample :
    Operation.new wC8PreemptDoc = .err Error.InvalidOperation := by
  have hfb : Operation.from_bson (Bson.int32 7) = .err .InvalidOperation := by
    simp [Operation.from_bson]
  have hcol : collectOperations
      [Bson.int32 7, Bson.document [("x", Bson.int32 1)]] =
      .err .InvalidOperation := by
    simpa using collectOperations_err [] (Bson.int32 7)
      [Bson.document [("x", Bson.int32 1)]] .InvalidOperation (by simp) hfb
  have hfc : Operation.from_command wC8PreemptDoc = .err .InvalidOperation := by
    rw [from_command_eq]
    simp [wC8PreemptDoc, Document.get_timestamp, Document.get_str,
      Document.get_document, Document.get_array, Document.get, hcol]
  have hop : Document.get_str wC8PreemptDoc "op" = .ok "c" := rfl
  simp [Operation.new, hop, hfc]

/-- C8 (amended): the first failing required field access decodes to
`MissingField` naming that access: a failing `op`; a failing `ts` under any
of the five codes; a failing `ns` once `ts` succeeded, and a failing `o` once
`ts` and `ns` succeeded, under the four codes that require them; a failing
`o2` for an update once `ts`, `ns` and `o` succeeded; and, at any position
and depth, a nested applyOps element whose own decode fails with
`MissingField`, provided the elements before it are documents that decode. -/
theorem C8_missing_field (d : Document) (e : ValueAccessError) :
    (Document.get_str d "op" = .error e →
      Operation.new d = .err (.MissingField e)) ∧
    (∀ s, Document.get_str d "op" = .ok s →
      s ∈ (["n", "i", "u", "d", "c"] : List String) →
      Document.get_timestamp d "ts" = .error e →
      Operation.new d = .err (.MissingField e)) ∧
    (∀ s ts, Document.get_str d "op" = .ok s →
      s ∈ (["i", "u", "d", "c"] : List String) →
      Document.get_timestamp d "ts" = .ok ts →
      Document.get_str d "ns" = .error e →
      Operation.new d = .err (.MissingField e)) ∧
    (∀ s ts ns, Document.get_str d "op" = .ok s →
      s ∈ (["i", "u", "d", "c"] : List String) →
      Document.get_timestamp d "ts" = .ok ts →
      Document.get_str d "ns" = .ok ns →
      Document.get_document d "o" = .error e →
      Operation.new d = .err (.MissingField e)) ∧
    (∀ ts ns o, Document.get_str d "op" = .ok "u" →
      Document.get_timestamp d "ts" = .ok ts →
      Document.get_str d "ns" = .ok ns →
      Document.get_document d "o" = .ok o →
      Document.get_document d "o2" = .error e →
      Operation.new d = .err (.MissingField e)) ∧
    (∀ ts ns o pre inner rest, Document.get_str d "op" = .ok "c" →
      Document.get_timestamp d "ts" = .ok ts →
      Document.get_str d "ns" = .ok ns →
      Document.get_document d "o" = .ok o →
      Document.get_array o "applyOps" = .ok (pre ++ Bson.document inner :: rest) →
      (∀ x ∈ pre, ∃ op, Operation.from_bson x = .ok op) →
      Operation.new inner = .err (.MissingField e) →
      Operation.new d = .err (.MissingField e)) := by
  refine ⟨fun h => new_missing_op h, ?_, ?_, ?_, ?_, ?_⟩
  · intro s hop hs hts
    simp only [List.mem_cons, List.mem_singleton] at hs
    rcases hs with rfl | rfl | rfl | rfl | rfl | hfalse
    · simp [Operation.new, hop, Operation.from_noop, hts]
    · simp [Operation.new, hop, Operation.from_insert, hts]
    · simp [Operation.new, hop, Operation.from_update, hts]
    · simp [Operation.new, hop, Operation.from_delete, hts]
    · have hfc : Operation.from_command d = .err (.MissingField e) := by
        rw [from_command_eq]
        simp only [hts]
      simp [Operation.new, hop, hfc]
    · cases hfalse
  · intro s ts hop hs hts hns
    simp only [List.mem_cons, List.mem_singleton] at hs
    rcases hs with rfl | rfl | rfl | rfl | hfalse
    · simp [Operation.new, hop, Operation.from_insert, hts, hns]
    · simp [Operation.new, hop, Operation.from_update, hts, hns]
    · simp [Operation.new, hop, Operation.from_delete, hts, hns]
    · have hfc : Operation.from_command d = .err (.MissingField e) := by
        rw [from_command_eq]
        simp only [hts, hns]
      simp [Operation.new, hop, hfc]
    · cases hfalse
  · intro s ts ns hop hs hts hns ho
    simp only [List.mem_cons, List.mem_singleton] at hs
    rcases hs with rfl | rfl | rfl | rfl | hfalse
    · simp [Operation.new, hop, Operation.from_insert, hts, hns, ho]
    · simp [Operation.new, hop, Operation.from_update, hts, hns, ho]
    · simp [Operation.new, hop, Operation.from_delete, hts, hns, ho]
    · have hfc : Operation.from_command d = .err (.MissingField e) := by
        rw [from_command_eq]
        simp only [hts, hns, ho]
      simp [Operation.new, hop, hfc]
    · cases hfalse
  · intro ts ns o hop hts hns ho ho2
    simp [Operation.new, hop, Operation.from_update, hts, hns, ho, ho2]
  · intro ts ns o pre inner rest hop hts hns ho ha hpre hinner
    have hfb : Operation.from_bson (Bson.document inner) =
        .err (.MissingField e) := by
      simp [Operation.from_bson, hinner]
    have hcol := collectOperations_err pre (Bson.document inner) rest
      (.MissingField e) hpre hfb
    have hfc : Operation.from_command d = .err (.MissingField e) := by
      rw [from_command_eq]
      simp only [hts, hns, ho, ha, hcol]
    simp [Operation.new, hop, hfc]

/-- A command document whose single applyOps element lacks its own `op`. -/
def wNestedNoOpDoc : Document :=
  [("ts", Bson.timestamp ⟨1483789052, 0⟩), ("op", Bson.str "c"),
   ("ns", Bson.str "foo.$cmd"),
   ("o", Bson.document
     [("applyOps", Bson.array [Bson.document [("x", Bson.int32 1)]])])]

/-- An insert document with no `ns`. -/
def wNoNsInsertDoc : Document :=
  [("ts", Bson.timestamp ⟨1479561394, 0⟩), ("op", Bson.str "i"),
   ("o", Bson.document [("foo", Bson.str "bar")])]

/-- C8 witness: a document without `op`; an insert without `ns`; and a
command whose nested applyOps element is missing its `op` — each fails with
`MissingField NotPresent`. -/
theorem C8_witness :
    Operation.new [("foo", Bson.str "bar")] =
      .err (.MissingField .NotPresent) ∧
    Operation.new wNoNsInsertDoc = .err (.MissingField .NotPresent) ∧
    Operation.new wNestedNoOpDoc = .err (.MissingField .NotPresent) :=
  ⟨(C8_missing_field [("foo", Bson.str "bar")] .NotPresent).1 rfl,
   (C8_missing_field wNoNsInsertDoc .NotPresent).2.2.1 "i" ⟨1479561394, 0⟩
     rfl (by decide) rfl rfl,
   (C8_missing_field wNestedNoOpDoc .NotPresent).2.2.2.2.2 ⟨1483789052, 0⟩
     "foo.$cmd"
     [("applyOps", Bson.array [Bson.document [("x", Bson.int32 1)]])]
     [] [("x", Bson.int32 1)] [] rfl rfl rfl rfl rfl (by simp)
     (new_missing_op rfl)⟩

/-- A no-op document whose timestamp ordinal exceeds chrono's accepted
nanosecond range. -/
def wPanicDoc : Document :=
  [("ts", Bson.timestamp ⟨1479419535, 2000000000⟩), ("op", Bson.str "n"),
   ("ns", Bson.str ""),
   ("o", Bson.document [("msg", Bson.str "initiating set")])]

/-- C9: decoding is not total — on a document whose timestamp ordinal is
`2_000_000_000`, the `Utc.timestamp` call inside `timestamp_to_datetime`
panics instead of producing an `Operation` or an error. -/
theorem C9_decode_panics_on_large_ordinal :
    Operation.new wPanicDoc = .crash := by
  simp [Operation.new, Operation.from_noop, wPanicDoc, noop_message,
    Document.get_str, Document.get_timestamp, Document.get,
    timestamp_to_datetime, Utc_timestamp]

/-- C10 (amended): a `"c"` document whose `o` holds an `applyOps` field that
is present but not an array, and whose timestamp ordinal is within chrono's
accepted range (the conversion is defined), decodes to `Command` with
`command = o` — the wrong-typed array access is collapsed into the
no-applyOps fallback, not reported. -/
theorem C10_wrong_typed_applyOps_command (d : Document) (ts : BsonTimestamp)
    (ns : String) (o : Document) (v : Bson) (dt : UtcDatetime)
    (hop : Document.get_str d "op" = .ok "c")
    (hts : Document.get_timestamp d "ts" = .ok ts)
    (hns : Document.get_str d "ns" = .ok ns)
    (ho : Document.get_document d "o" = .ok o)
    (hv : Document.get o "applyOps" = some v)
    (hna : ∀ xs, v ≠ Bson.array xs)
    (hdt : timestamp_to_datetime ts = some dt) :
    Operation.new d = .ok (.Command dt ns o) := by
  have hga : Document.get_array o "applyOps" = .error .UnexpectedType := by
    unfold Document.get_array
    rw [hv]
    cases v with
    | array xs => exact absurd rfl (hna xs)
    | timestamp ts => rfl
    | str s => rfl
    | int32 n => rfl
    | document dd => rfl
  have hfc : Operation.from_command d = .ok (.Command dt ns o) := by
    rw [from_command_eq]
    simp only [hts, hns, ho, hga, hdt]
  simp [Operation.new, hop, hfc]

/-- A command document with a wrong-typed (non-array) `applyOps` field. -/
def wWrongTypedApplyDoc : Document :=
  [("ts", Bson.timestamp ⟨1479553955, 0⟩), ("op", Bson.str "c"),
   ("ns", Bson.str "test.$cmd"),
   ("o", Bson.document [("applyOps", Bson.int32 3)])]

/-- C10 witness: the wrong-typed `applyOps` document decodes to `Command`. -/
theorem C10_witness :
    Operation.new wWrongTypedApplyDoc =
      .ok (.Command ⟨1479553955, 0⟩ "test.$cmd"
        [("applyOps", Bson.int32 3)]) :=
  C10_wrong_typed_applyOps_command wWrongTypedApplyDoc ⟨1479553955, 0⟩
    "test.$cmd" [("applyOps", Bson.int32 3)] (Bson.int32 3) ⟨1479553955, 0⟩
    rfl rfl rfl rfl rfl (fun xs h => Bson.noConfusion h) rfl

/-- A command document with a wrong-typed `applyOps` field whose timestamp
ordinal is outside chrono's accepted range. -/
def wC10PanicDoc : Document :=
  [("ts", Bson.timestamp ⟨1479553955, 2000000000⟩), ("op", Bson.str "c"),
   ("ns", Bson.str "test.$cmd"),
   ("o", Bson.document [("applyOps", Bson.int32 3)])]

/-- C10 counterexample: op is `"c"`, `ts`, `ns` and document `o` are present
and `applyOps` is present but not an array, yet decode panics (ordinal
2_000_000_000 makes the chrono conversion abort) instead of returning the
claimed `Command`. -/
theorem C10_counterexample : Operation.new wC10PanicDoc = .crash := by
  have hfc : Operation.from_command wC10PanicDoc = .crash := by
    rw [from_command_eq]
    simp [wC10PanicDoc, Document.get_timestamp, Document.get_str,
      Document.get_document, Document.get_array, Document.get,
      timestamp_to_datetime, Utc_timestamp]
  have hop : Document.get_str wC10PanicDoc "op" = .ok "c" := rfl
  simp [Operation.new, hop, hfc]

end Oplog
